import Mathlib

/-!
Verification of the Notion ⟷ Markdown blog-sync scripts.

The repository has two scripts: a push script (`migrate-to-notion`, given
here as `src/unnamed/part_000`) that reads local Markdown posts and creates
Notion pages, and a pull script (`src/scripts/sync-from-notion.ts`) that
queries Notion and writes Markdown files, tracking incremental sync through
a timestamp file.

Strings are modelled as `List Char` (`Str` below); JavaScript string
methods (`trim`, `split`, `indexOf`, `slice`, `includes`, `padStart`,
regular-expression matching) are given explicit executable definitions on
`List Char` that mirror their semantics on the inputs the scripts handle.
External services (the Notion HTTP API, the `notion-to-md` converter, the
filesystem, `Date` parsing) are parameters of the pipeline models, as the
spec treats them as opaque.
-/

/-- Strings as explicit character lists, so every operation of the scripts
is an executable structural recursion. -/
abbrev Str := List Char

/-- The whitespace recognised by the JavaScript `trim` / `\s` on the
character sets these scripts handle. -/
def isJsSpace (c : Char) : Bool :=
  c = ' ' || c = '\t' || c = '\n' || c = '\r' || c = '\x0b' || c = '\x0c'

/-- JavaScript `String.prototype.trim`: strip leading and trailing
whitespace. -/
def trimChars (l : Str) : Str :=
  ((l.dropWhile isJsSpace).reverse.dropWhile isJsSpace).reverse

/-- `pat.isPrefixOf s` for char lists: JavaScript `s.startsWith(pat)`. -/
def startsWithL : Str → Str → Bool
  | [], _ => true
  | _ :: _, [] => false
  | a :: as, b :: bs => a = b && startsWithL as bs

/-- JavaScript `s.endsWith(pat)`. -/
def endsWithL (pat s : Str) : Bool :=
  startsWithL pat.reverse s.reverse

/-- JavaScript `s.includes(pat)` (substring test). -/
def containsSub : Str → Str → Bool
  | [], n => n.isEmpty
  | h@(_ :: t), n => startsWithL n h || containsSub t n

/-- JavaScript `s.indexOf(c)` restricted to a single character, as
used by the frontmatter parser (`line.indexOf(":")`). -/
def idxOfC (c : Char) : Str → Option Nat
  | [] => none
  | d :: ds => if d = c then some 0 else (idxOfC c ds).map (· + 1)

/-- JavaScript `s.split(c)`: always returns at least one (possibly empty)
segment. -/
def splitChar (c : Char) : Str → List Str
  | [] => [[]]
  | d :: ds =>
    if d = c then [] :: splitChar c ds
    else
      match splitChar c ds with
      | s :: ss => (d :: s) :: ss
      | [] => [[d]]

/-- JavaScript `Array.prototype.join(sep)`. -/
def joinSep (sep : Str) : List Str → Str
  | [] => []
  | [m] => m
  | m :: m' :: ms => m ++ sep ++ joinSep sep (m' :: ms)

/-- First occurrence split: `splitOnFirst sep l = some (a, b)` when
`l = a ++ sep ++ b` with the shown occurrence of `sep` the leftmost one;
`none` when `sep` does not occur.  This is the behaviour of the lazy
regular-expression group `([\s\S]*?)sep` used by the frontmatter parser. -/
def splitOnFirst (sep : Str) : Str → Option (Str × Str)
  | [] => none
  | c :: cs =>
    if startsWithL sep (c :: cs) then some ([], (c :: cs).drop sep.length)
    else
      match splitOnFirst sep cs with
      | some (a, b) => some (c :: a, b)
      | none => none

/-- Decimal digits of a `Nat`, fuelled to stay structurally recursive
(the fuel `n + 1` always suffices).  Models JavaScript `String(n)`. -/
def natDigitsGo : Nat → Nat → Str
  | 0, _ => []
  | fuel + 1, n =>
    if n < 10 then [Nat.digitChar n]
    else natDigitsGo fuel (n / 10) ++ [Nat.digitChar (n % 10)]

/-- JavaScript `String(n)` for a natural number. -/
def natDigits (n : Nat) : Str := natDigitsGo (n + 1) n

/-- JavaScript `String(n).padStart(2, "0")`. -/
def padStart2 (s : Str) : Str :=
  if s.length < 2 then List.replicate (2 - s.length) '0' ++ s else s

/-- JavaScript `parseInt(s, 10)` on a non-empty all-digit string (the only
shape produced by the `^(\d+)-` filename match). -/
def digitsToNat (s : Str) : Nat :=
  s.foldl (fun acc c => acc * 10 + (c.toNat - 48)) 0

example : trimChars "  ab c\n".data = "ab c".data := by decide
example : splitChar ',' "a,b,".data = ["a".data, "b".data, [] ] := by decide
example : splitOnFirst "\n---\n".data "x\n---\nrest".data
    = some ("x".data, "rest".data) := by decide
example : containsSub "01-alpha.md".data "alpha".data = true := by decide
example : padStart2 (natDigits 7) = "07".data := by decide
example : idxOfC ':' "title: x".data = some 5 := by decide

/-! ## Slug generation (`generateSlug`, sync-from-notion.ts lines 162-168)

```ts
return title
  .toLowerCase()
  .replace(/[^a-z0-9一-龥]+/g, "-")
  .replace(/^-+|-+$/g, "");
```
-/

/-- Membership in the character class `[a-z0-9一-龥]` kept by the
slug replacement. -/
def isSlugKeep (c : Char) : Bool :=
  (97 ≤ c.toNat && c.toNat ≤ 122) ||
  (48 ≤ c.toNat && c.toNat ≤ 57) ||
  (0x4e00 ≤ c.toNat && c.toNat ≤ 0x9fa5)

/-- Global replacement of each maximal non-empty run of characters outside
`isSlugKeep` by a single `'-'` (the regex `/[^...]+/g → "-"`).  `inRun`
records whether the scan is inside such a run. -/
def collapseGo (inRun : Bool) : Str → Str
  | [] => []
  | c :: cs =>
    if isSlugKeep c then c :: collapseGo false cs
    else if inRun then collapseGo true cs
    else '-' :: collapseGo true cs

/-- The regex `/^-+|-+$/g → ""`: remove one leading and one trailing run of
hyphens. -/
def trimHyphens (l : Str) : Str :=
  ((l.dropWhile (· == '-')).reverse.dropWhile (· == '-')).reverse

/-- `generateSlug` of sync-from-notion.ts.  `toLowerCase` is modelled
per-character by `Char.toLower`. -/
def generateSlug (title : Str) : Str :=
  trimHyphens (collapseGo false (title.map Char.toLower))

example : generateSlug "你好, World!".data = "你好-world".data := by decide
example : generateSlug "  --a--b--  ".data = "a-b".data := by decide
example : generateSlug "!!!".data = [] := by decide

/-- `[]`-headed or first character not a hyphen. -/
def headHyphenFree : Str → Bool
  | [] => true
  | c :: _ => !(c == '-')

/-- The "no two consecutive hyphens" relation on adjacent characters. -/
def NoHH (a b : Char) : Prop := ¬(a = '-' ∧ b = '-')

theorem isSlugKeep_ne_hyphen {c : Char} (h : isSlugKeep c = true) : c ≠ '-' := by
  intro hEq
  rw [hEq] at h
  exact absurd h (by decide)

theorem collapseGo_true_head {l : Str} {d : Char}
    (h : (collapseGo true l).head? = some d) : isSlugKeep d = true := by
  induction l with
  | nil => simp [collapseGo] at h
  | cons c cs ih =>
    by_cases hc : isSlugKeep c
    · simp [collapseGo, hc] at h
      simp [← h, hc]
    · simp only [collapseGo, hc, if_neg, Bool.false_eq_true, if_false, if_true] at h
      exact ih h

theorem collapseGo_mem {c : Char} :
    ∀ (b : Bool) (l : Str), c ∈ collapseGo b l → isSlugKeep c = true ∨ c = '-'
  | _, [], h => by simp [collapseGo] at h
  | b, d :: ds, h => by
    by_cases hd : isSlugKeep d
    · simp [collapseGo, hd] at h
      rcases h with rfl | h
      · exact Or.inl hd
      · exact collapseGo_mem false ds h
    · cases b with
      | true =>
        simp only [collapseGo, hd, Bool.false_eq_true, if_false, if_true] at h
        exact collapseGo_mem true ds h
      | false =>
        simp only [collapseGo, hd, Bool.false_eq_true, if_false, List.mem_cons] at h
        rcases h with rfl | h
        · exact Or.inr rfl
        · exact collapseGo_mem true ds h

theorem collapseGo_chain : ∀ (b : Bool) (l : Str), List.Chain' NoHH (collapseGo b l)
  | _, [] => by simp [collapseGo]
  | b, d :: ds => by
    by_cases hd : isSlugKeep d
    · simp only [collapseGo, hd, if_true]
      refine List.chain'_cons'.mpr ⟨?_, collapseGo_chain false ds⟩
      intro y _
      exact fun hcon => isSlugKeep_ne_hyphen hd hcon.1
    · cases b with
      | true =>
        simpa only [collapseGo, hd, Bool.false_eq_true, if_false, if_true]
          using collapseGo_chain true ds
      | false =>
        simp only [collapseGo, hd, Bool.false_eq_true, if_false]
        refine List.chain'_cons'.mpr ⟨?_, collapseGo_chain true ds⟩
        intro y hy
        exact fun hcon => isSlugKeep_ne_hyphen (collapseGo_true_head hy) hcon.2

theorem headHyphenFree_dropWhile (l : Str) :
    headHyphenFree (l.dropWhile (· == '-')) = true := by
  induction l with
  | nil => simp [headHyphenFree]
  | cons c cs ih =>
    by_cases hc : c = '-'
    · simpa [hc] using ih
    · simp [List.dropWhile_cons_of_neg, hc, headHyphenFree]

theorem headHyphenFree_of_isPrefix {a b : Str} (h : a <+: b)
    (hb : headHyphenFree b = true) : headHyphenFree a = true := by
  rcases h with ⟨t, rfl⟩
  cases a with
  | nil => rfl
  | cons c cs => simpa [headHyphenFree] using hb

/-- `trimHyphens` keeps a prefix of the leading-hyphen-stripped list. -/
theorem trimHyphens_isPrefix (l : Str) :
    trimHyphens l <+: l.dropWhile (· == '-') := by
  have h : (l.dropWhile (· == '-')).reverse.dropWhile (· == '-')
      <:+ (l.dropWhile (· == '-')).reverse := List.dropWhile_suffix _
  have h2 := List.reverse_prefix.mpr h
  rw [List.reverse_reverse] at h2
  exact h2

theorem trimHyphens_head (l : Str) : headHyphenFree (trimHyphens l) = true :=
  headHyphenFree_of_isPrefix (trimHyphens_isPrefix l) (headHyphenFree_dropWhile l)

theorem trimHyphens_last (l : Str) :
    headHyphenFree (trimHyphens l).reverse = true := by
  unfold trimHyphens
  rw [List.reverse_reverse]
  exact headHyphenFree_dropWhile _

theorem trimHyphens_subset (l : Str) : trimHyphens l ⊆ l := fun c hc => by
  have h1 : c ∈ l.dropWhile (· == '-') := (trimHyphens_isPrefix l).subset hc
  exact (List.dropWhile_sublist _).subset h1

theorem chain'_of_suffix {R : Char → Char → Prop} {a b : Str}
    (h : a <:+ b) (hb : List.Chain' R b) : List.Chain' R a := by
  rcases h with ⟨t, rfl⟩
  exact (List.chain'_append.mp hb).2.1

theorem trimHyphens_chain {l : Str} (h : List.Chain' NoHH l) :
    List.Chain' NoHH (trimHyphens l) := by
  have h1 : List.Chain' NoHH (l.dropWhile (· == '-')) :=
    chain'_of_suffix (List.dropWhile_suffix _) h
  have h2 : List.Chain' NoHH (l.dropWhile (· == '-')).reverse := by
    rw [List.chain'_reverse]
    exact h1.imp (fun {a b} hab => fun hcon => hab ⟨hcon.2, hcon.1⟩)
  have h3 : List.Chain' NoHH ((l.dropWhile (· == '-')).reverse.dropWhile (· == '-')) :=
    chain'_of_suffix (List.dropWhile_suffix _) h2
  unfold trimHyphens
  rw [List.chain'_reverse]
  exact h3.imp (fun {a b} hab => fun hcon => hab ⟨hcon.2, hcon.1⟩)

theorem generateSlug_mem {t : Str} {c : Char} (h : c ∈ generateSlug t) :
    isSlugKeep c = true ∨ c = '-' :=
  collapseGo_mem false _ (trimHyphens_subset _ h)

theorem generateSlug_chain (t : Str) : List.Chain' NoHH (generateSlug t) :=
  trimHyphens_chain (collapseGo_chain false _)

theorem generateSlug_head (t : Str) : headHyphenFree (generateSlug t) = true :=
  trimHyphens_head _

theorem generateSlug_last (t : Str) :
    headHyphenFree (generateSlug t).reverse = true :=
  trimHyphens_last _

/-- C7: for every title the generated slug contains only lowercase Latin
letters, digits, CJK characters (U+4E00–U+9FA5) and hyphens, never two
hyphens in a row, and no leading or trailing hyphen; in particular the
title "你好, World!" yields the slug "你好-world". -/
theorem generateSlug_shape_C7 :
    (∀ t : Str, (∀ c ∈ generateSlug t, isSlugKeep c = true ∨ c = '-') ∧
      List.Chain' NoHH (generateSlug t) ∧
      headHyphenFree (generateSlug t) = true ∧
      headHyphenFree (generateSlug t).reverse = true) ∧
    generateSlug "你好, World!".data = "你好-world".data :=
  ⟨fun t => ⟨fun _ hc => generateSlug_mem hc, generateSlug_chain t,
    generateSlug_head t, generateSlug_last t⟩, by decide⟩

theorem toLower_fix {c : Char} (h : isSlugKeep c = true ∨ c = '-') :
    c.toLower = c := by
  rcases h with h | rfl
  · simp only [isSlugKeep, Bool.or_eq_true, Bool.and_eq_true, decide_eq_true_eq] at h
    unfold Char.toLower
    rw [if_neg]
    omega
  · decide

theorem collapseGo_head_keep {d : Char} {ds : Str} (hd : isSlugKeep d = true)
    (b : Bool) : collapseGo b (d :: ds) = d :: collapseGo false ds := by
  cases b <;> simp [collapseGo, hd]

theorem headHyphenFree_dropLastChar {l : Str} {c : Char}
    (h : headHyphenFree (l ++ [c]) = true) (hl : l ≠ []) :
    headHyphenFree l = true := by
  cases l with
  | nil => exact absurd rfl hl
  | cons a as => simpa [headHyphenFree] using h

theorem collapseGo_fix : ∀ l : Str,
    (∀ c ∈ l, isSlugKeep c = true ∨ c = '-') →
    List.Chain' NoHH l → headHyphenFree l.reverse = true →
    collapseGo false l = l
  | [], _, _, _ => rfl
  | c :: cs, hmem, hchain, hlast => by
    rcases hmem c (List.mem_cons_self _ _) with hc | rfl
    · rw [collapseGo_head_keep hc]
      congr 1
      cases cs with
      | nil => rfl
      | cons d ds =>
        refine collapseGo_fix (d :: ds) (fun x hx => hmem x (List.mem_cons_of_mem _ hx))
          hchain.tail ?_
        have : (c :: d :: ds).reverse = (d :: ds).reverse ++ [c] := by simp
        rw [this] at hlast
        exact headHyphenFree_dropLastChar hlast (by simp)
    · -- the head is a hyphen
      cases cs with
      | nil => simp [headHyphenFree] at hlast
      | cons d ds =>
        have hd : isSlugKeep d = true := by
          rcases hmem d (List.mem_cons_of_mem _ (List.mem_cons_self _ _)) with hd | rfl
          · exact hd
          · exact absurd ⟨rfl, rfl⟩ (List.chain'_cons.mp hchain).1
        have hrest : collapseGo false (d :: ds) = d :: ds := by
          refine collapseGo_fix (d :: ds) (fun x hx => hmem x (List.mem_cons_of_mem _ hx))
            hchain.tail ?_
          have : ('-' :: d :: ds).reverse = (d :: ds).reverse ++ ['-'] := by simp
          rw [this] at hlast
          exact headHyphenFree_dropLastChar hlast (by simp)
        have hstep : collapseGo false ('-' :: d :: ds)
            = '-' :: collapseGo true (d :: ds) := by
          have h' : isSlugKeep '-' = false := by decide
          simp [collapseGo, h']
        rw [hstep, collapseGo_head_keep hd]
        rw [collapseGo_head_keep hd] at hrest
        exact congrArg _ hrest

theorem trimHyphens_fix {l : Str} (h1 : headHyphenFree l = true)
    (h2 : headHyphenFree l.reverse = true) : trimHyphens l = l := by
  have e1 : l.dropWhile (· == '-') = l := by
    cases l with
    | nil => rfl
    | cons c cs =>
      have : (c == '-') = false := by simpa [headHyphenFree] using h1
      simp [List.dropWhile_cons, this]
  have e2 : l.reverse.dropWhile (· == '-') = l.reverse := by
    cases hrev : l.reverse with
    | nil => rfl
    | cons c cs =>
      rw [hrev] at h2
      have : (c == '-') = false := by simpa [headHyphenFree] using h2
      simp [List.dropWhile_cons, this]
  unfold trimHyphens
  rw [e1, e2, List.reverse_reverse]

/-- C10: `generateSlug` is idempotent — every slug it produces is a fixed
point of the slug generator. -/
theorem generateSlug_idem_C10 :
    ∀ t : Str, generateSlug (generateSlug t) = generateSlug t := by
  intro t
  have hmap : (generateSlug t).map Char.toLower = generateSlug t := by
    rw [List.map_congr_left (fun c hc => toLower_fix (generateSlug_mem hc))]
    exact List.map_id' _
  have hcoll : collapseGo false (generateSlug t) = generateSlug t :=
    collapseGo_fix _ (fun _ hc => generateSlug_mem hc) (generateSlug_chain t)
      (generateSlug_last t)
  unfold generateSlug
  rw [show (trimHyphens (collapseGo false (t.map Char.toLower))) = generateSlug t
      from rfl, hmap, hcoll]
  exact trimHyphens_fix (generateSlug_head t) (generateSlug_last t)

/-! ## Block chunking in `createNotionPage` (part_000 lines 284-305)

```ts
const firstChunk = blocks.slice(0, 100);
const remainingBlocks = blocks.slice(100);
... children: firstChunk ...
const chunkSize = 100;
for (let i = 0; i < remainingBlocks.length; i += chunkSize) {
  const chunk = remainingBlocks.slice(i, i + chunkSize);
  await notionRequest(`/blocks/.../children`, "PATCH", { children: chunk });
}
```
-/

/-- The `for (i += 100) slice(i, i+100)` loop: split a list into consecutive
chunks of at most 100 elements.  Fuelled by the list length to stay
structurally recursive; `chunkGo fuel l` with `fuel ≥ l.length` is the loop. -/
def chunkGo {α : Type} : Nat → List α → List (List α)
  | 0, _ => []
  | _, [] => []
  | fuel + 1, l@(_ :: _) => l.take 100 :: chunkGo fuel (l.drop 100)

/-- The children sent with the page-creation request: `blocks.slice(0, 100)`. -/
def firstChunk {α : Type} (blocks : List α) : List α := blocks.take 100

/-- The children of the successive append requests, in order: batches of at
most 100 taken from `blocks.slice(100)`. -/
def appendCalls {α : Type} (blocks : List α) : List (List α) :=
  chunkGo (blocks.drop 100).length (blocks.drop 100)

theorem chunkGo_flatten {α : Type} :
    ∀ (fuel : Nat) (l : List α), l.length ≤ fuel → (chunkGo fuel l).flatten = l
  | 0, [], _ => rfl
  | 0, _ :: _, h => by simp at h
  | _ + 1, [], _ => rfl
  | fuel + 1, a :: l, h => by
    rw [chunkGo, List.flatten_cons, chunkGo_flatten fuel ((a :: l).drop 100) (by
      simp only [List.length_drop] at *
      omega)]
    exact List.take_append_drop _ _

theorem chunkGo_sizes {α : Type} :
    ∀ (fuel : Nat) (l : List α),
      (chunkGo fuel l).all (fun c => decide (0 < c.length) && decide (c.length ≤ 100)) = true
  | 0, [] => rfl
  | 0, _ :: _ => rfl
  | _ + 1, [] => rfl
  | fuel + 1, a :: l => by
    rw [chunkGo, List.all_cons, chunkGo_sizes fuel ((a :: l).drop 100)]
    simp [List.length_take]

set_option maxRecDepth 100000 in
/-- C1: the page-creation call receives the first `min(n, 100)` blocks, the
append calls carry the remaining blocks in order in batches of at most 100
(each non-empty), and on 250 blocks the creation call gets exactly 100 blocks
and exactly two append calls follow, of 100 and 50 blocks. -/
theorem createNotionPage_chunking_C1 :
    (∀ blocks : List Nat,
      (firstChunk blocks).length = min blocks.length 100 ∧
      firstChunk blocks ++ (appendCalls blocks).flatten = blocks ∧
      (appendCalls blocks).all
        (fun c => decide (0 < c.length) && decide (c.length ≤ 100)) = true) ∧
    (firstChunk (List.range 250)).length = 100 ∧
    (appendCalls (List.range 250)).map List.length = [100, 50] := by
  refine ⟨fun blocks => ⟨?_, ?_, chunkGo_sizes _ _⟩, ?_, ?_⟩
  · simp [firstChunk, List.length_take, Nat.min_comm]
  · rw [appendCalls, chunkGo_flatten _ _ (le_refl _)]
    exact List.take_append_drop _ _
  · decide
  · decide

/-! ## Markdown → Notion blocks (`markdownToNotionBlocks`, part_000 lines 111-246)

A single forward scan over lines.  The `while` loop advances the cursor at
least one line per iteration, so fuelling it with the number of lines is
exact. -/

/-- One structured Notion block as produced by the push script's converter. -/
inductive NotionBlock : Type
  | heading1 (text : Str)
  | heading2 (text : Str)
  | heading3 (text : Str)
  | code (language : Str) (text : Str)
  | bulleted (text : Str)
  | numbered (text : Str)
  | quote (text : Str)
  | paragraph (text : Str)
deriving DecidableEq, Repr

/-- The `^\d+\.\s+(.*)$` match: leading digits, a dot, at least one
whitespace, and the remainder of the line as the captured text. -/
def numberedContent (l : Str) : Option Str :=
  let ds := l.takeWhile Char.isDigit
  if ds.isEmpty then none
  else
    match l.drop ds.length with
    | '.' :: r =>
      let sp := r.takeWhile isJsSpace
      if sp.isEmpty then none else some (r.drop sp.length)
    | _ => none

/-- The scan loop of `markdownToNotionBlocks` over the line list, checked in
source order: blank line, `### `, `## `, `# `, code fence, `- `/`* ` bullet,
numbered item, `> ` quote, else paragraph.  The code-fence branch consumes
the lines up to (and including) the closing fence. -/
def mdGo : Nat → List Str → List NotionBlock
  | 0, _ => []
  | _, [] => []
  | fuel + 1, line :: rest =>
    if trimChars line = [] then mdGo fuel rest
    else if startsWithL "### ".data line then
      .heading3 (line.drop 4) :: mdGo fuel rest
    else if startsWithL "## ".data line then
      .heading2 (line.drop 3) :: mdGo fuel rest
    else if startsWithL "# ".data line then
      .heading1 (line.drop 2) :: mdGo fuel rest
    else if startsWithL "```".data line then
      let language :=
        if (trimChars (line.drop 3)).isEmpty then "plain text".data
        else trimChars (line.drop 3)
      let codeLines := rest.takeWhile (fun l => !startsWithL "```".data l)
      let rest' := (rest.dropWhile (fun l => !startsWithL "```".data l)).drop 1
      .code language (joinSep "\n".data codeLines) :: mdGo fuel rest'
    else if startsWithL "- ".data line || startsWithL "* ".data line then
      .bulleted (line.drop 2) :: mdGo fuel rest
    else
      match numberedContent line with
      | some text => .numbered text :: mdGo fuel rest
      | none =>
        if startsWithL "> ".data line then
          .quote (line.drop 2) :: mdGo fuel rest
        else
          .paragraph line :: mdGo fuel rest

/-- `markdownToNotionBlocks` of part_000: split on newlines and scan. -/
def markdownToNotionBlocks (markdown : Str) : List NotionBlock :=
  mdGo (splitChar '\n' markdown).length (splitChar '\n' markdown)

example : markdownToNotionBlocks "## Section".data
    = [.heading2 "Section".data] := by decide
example : markdownToNotionBlocks "```js\ncode\n```".data
    = [.code "js".data "code".data] := by decide
example : markdownToNotionBlocks "```js\nlet x = 1\nlet y".data
    = [.code "js".data "let x = 1\nlet y".data] := by decide
example : markdownToNotionBlocks "```\ncode\n```".data
    = [.code "plain text".data "code".data] := by decide
example : markdownToNotionBlocks "# T\n\n- a\n1. b\n> q\npara".data
    = [.heading1 "T".data, .bulleted "a".data, .numbered "b".data,
       .quote "q".data, .paragraph "para".data] := by decide

theorem mdGo_nil : ∀ fuel, mdGo fuel [] = []
  | 0 => rfl
  | _ + 1 => rfl

theorem trimChars_ne_nil {c : Char} (l : Str) (h : isJsSpace c = false) :
    trimChars (c :: l) ≠ [] := by
  intro hnil
  unfold trimChars at hnil
  rw [List.dropWhile_cons_of_neg (by simp [h]), List.reverse_eq_nil_iff,
    List.dropWhile_eq_nil_iff] at hnil
  have := hnil c (by simp)
  rw [h] at this
  exact Bool.false_ne_true this

theorem splitChar_no_sep {c : Char} : ∀ {m : Str}, c ∉ m → splitChar c m = [m]
  | [], _ => rfl
  | d :: ds, h => by
    have hd : d ≠ c := fun hEq => h (hEq ▸ List.mem_cons_self _ _)
    have ih := splitChar_no_sep (fun hm => h (List.mem_cons_of_mem _ hm))
    simp [splitChar, hd, ih]

theorem splitChar_append_sep {c : Char} :
    ∀ {m : Str} (t : Str), c ∉ m → splitChar c (m ++ c :: t) = m :: splitChar c t
  | [], t, _ => by simp [splitChar]
  | d :: ds, t, h => by
    have hd : d ≠ c := fun hEq => h (hEq ▸ List.mem_cons_self _ _)
    have ih := splitChar_append_sep t (fun hm => h (List.mem_cons_of_mem _ hm))
    simp only [List.cons_append, splitChar, hd, if_false]
    rw [show ds.append (c :: t) = ds ++ c :: t from rfl, ih]

theorem splitChar_joinSep {c : Char} :
    ∀ {ls : List Str}, ls ≠ [] → (∀ m ∈ ls, c ∉ m) →
      splitChar c (joinSep [c] ls) = ls
  | [], h, _ => absurd rfl h
  | [m], _, hm => by
    rw [joinSep, splitChar_no_sep (hm m (List.mem_cons_self _ _))]
  | m :: m' :: ms, _, hm => by
    have step : joinSep [c] (m :: m' :: ms) = m ++ c :: joinSep [c] (m' :: ms) := by
      rw [joinSep]; simp
    rw [step, splitChar_append_sep _ (hm m (List.mem_cons_self _ _)),
      splitChar_joinSep (List.cons_ne_nil _ _) (fun x hx => hm x (List.mem_cons_of_mem _ hx))]

theorem isEmpty_false_of_ne_nil {l : Str} (h : l ≠ []) : l.isEmpty = false := by
  cases l with
  | nil => exact absurd rfl h
  | cons a t => rfl

/-- Unfolding the code-fence branch of the scan: a fence line produces one
code block from the lines before the next closing fence, and the scan resumes
after the closing fence. -/
theorem mdGo_fence (tag : Str) (rest : List Str) (htag : trimChars tag ≠ [])
    (fuel : Nat) :
    mdGo (fuel + 1) (("```".data ++ tag) :: rest)
      = .code (trimChars tag)
          (joinSep "\n".data (rest.takeWhile (fun l => !startsWithL "```".data l)))
        :: mdGo fuel ((rest.dropWhile (fun l => !startsWithL "```".data l)).drop 1) := by
  have hline : "```".data ++ tag = '`' :: '`' :: '`' :: tag := rfl
  have h1 : ¬(trimChars ('`' :: '`' :: '`' :: tag) = []) :=
    trimChars_ne_nil _ (by decide)
  have h2 : startsWithL "### ".data ('`' :: '`' :: '`' :: tag) = false := rfl
  have h3 : startsWithL "## ".data ('`' :: '`' :: '`' :: tag) = false := rfl
  have h4 : startsWithL "# ".data ('`' :: '`' :: '`' :: tag) = false := rfl
  have h5 : startsWithL "```".data ('`' :: '`' :: '`' :: tag) = true := rfl
  have hdrop : ('`' :: '`' :: '`' :: tag).drop 3 = tag := rfl
  rw [hline]
  simp only [mdGo, h1, h2, h3, h4, h5, hdrop, Bool.false_eq_true, if_false, if_true,
    isEmpty_false_of_ne_nil htag]

/-- C6: a fenced code block produces exactly one `code` block whose language
is the fence's (trimmed, non-empty) tag and whose text is the enclosed lines
joined by newlines; an unterminated fence at end of input produces one code
block containing all remaining lines, without any error. -/
theorem markdown_code_fence_C6 (tag : Str) (codeLines : List Str)
    (htagNL : '\n' ∉ tag) (htag : trimChars tag ≠ [])
    (hcode : ∀ l ∈ codeLines, '\n' ∉ l ∧ startsWithL "```".data l = false) :
    markdownToNotionBlocks
        (joinSep "\n".data (("```".data ++ tag) :: codeLines ++ ["```".data]))
      = [.code (trimChars tag) (joinSep "\n".data codeLines)] ∧
    markdownToNotionBlocks (joinSep "\n".data (("```".data ++ tag) :: codeLines))
      = [.code (trimChars tag) (joinSep "\n".data codeLines)] := by
  have hfence_nl : '\n' ∉ "```".data ++ tag := by
    intro hm
    rcases List.mem_append.mp hm with h | h
    · exact absurd h (by decide)
    · exact htagNL h
  have hp : ∀ a ∈ codeLines, (fun l => !startsWithL "```".data l) a = true :=
    fun a ha => by simp [(hcode a ha).2]
  constructor
  · have hnomem : ∀ m ∈ ("```".data ++ tag) :: codeLines ++ ["```".data], '\n' ∉ m := by
      intro m hm
      rcases List.mem_cons.mp hm with rfl | hm
      · exact hfence_nl
      · rcases List.mem_append.mp hm with h | h
        · exact (hcode m h).1
        · rw [List.mem_singleton.mp h]; decide
    have hsplit : splitChar '\n'
        (joinSep "\n".data (("```".data ++ tag) :: codeLines ++ ["```".data]))
        = ("```".data ++ tag) :: codeLines ++ ["```".data] :=
      splitChar_joinSep (List.cons_ne_nil _ _) hnomem
    rw [markdownToNotionBlocks, hsplit, List.cons_append, List.length_cons,
      mdGo_fence _ _ htag, List.takeWhile_append_of_pos hp,
      List.dropWhile_append_of_pos hp, List.takeWhile_cons_of_neg (by decide),
      List.dropWhile_cons_of_neg (by decide)]
    simp [mdGo_nil]
  · have hnomem : ∀ m ∈ ("```".data ++ tag) :: codeLines, '\n' ∉ m := by
      intro m hm
      rcases List.mem_cons.mp hm with rfl | hm
      · exact hfence_nl
      · exact (hcode m hm).1
    have hsplit : splitChar '\n' (joinSep "\n".data (("```".data ++ tag) :: codeLines))
        = ("```".data ++ tag) :: codeLines :=
      splitChar_joinSep (List.cons_ne_nil _ _) hnomem
    rw [markdownToNotionBlocks, hsplit, List.length_cons, mdGo_fence _ _ htag,
      List.takeWhile_eq_self_iff.mpr hp, List.dropWhile_eq_nil_iff.mpr hp]
    simp [mdGo_nil]

/-- C6 witness: the fence ```` ```js\ncode\n``` ```` yields one code block of
language `js` and text `code`, terminated or not. -/
theorem markdown_code_fence_C6_witness :
    markdownToNotionBlocks
        (joinSep "\n".data (("```".data ++ "js".data) :: ["code".data] ++ ["```".data]))
      = [.code (trimChars "js".data) (joinSep "\n".data ["code".data])] ∧
    markdownToNotionBlocks (joinSep "\n".data (("```".data ++ "js".data) :: ["code".data]))
      = [.code (trimChars "js".data) (joinSep "\n".data ["code".data])] :=
  markdown_code_fence_C6 "js".data ["code".data] (by decide) (by decide) (by decide)

/-! ## Frontmatter: `parseFrontmatter` (part_000 lines 55-109, push script) and
`generateFrontmatter` (sync-from-notion.ts lines 170-184, pull script) -/

/-- A dynamically-typed frontmatter value, as the untyped assignment
`(frontmatter as Record<string, unknown>)[key] = ...` produces: a raw
string, a boolean literal, or a bracketed list. -/
inductive FMValue : Type
  | str (s : Str)
  | bool (b : Bool)
  | arr (items : List Str)
deriving DecidableEq, Repr

/-- The `BlogFrontmatter` record.  `title` and `date` are initialised to
`""`; the remaining known fields are absent until assigned.  Unknown keys
are stored by the script into the same record object but are never read
back, so they are not retained in the model. -/
structure Frontmatter where
  title : FMValue := .str []
  date : FMValue := .str []
  slug : Option FMValue := none
  tags : Option FMValue := none
  categories : Option FMValue := none
  description : Option FMValue := none
  draft : Option FMValue := none
deriving DecidableEq, Repr

/-- Dynamic assignment `frontmatter[key] = v` for the keys the scripts read. -/
def setFM (fm : Frontmatter) (key : Str) (v : FMValue) : Frontmatter :=
  if key = "title".data then { fm with title := v }
  else if key = "date".data then { fm with date := v }
  else if key = "slug".data then { fm with slug := some v }
  else if key = "tags".data then { fm with tags := some v }
  else if key = "categories".data then { fm with categories := some v }
  else if key = "description".data then { fm with description := some v }
  else if key = "draft".data then { fm with draft := some v }
  else fm

/-- The quote-unwrapping step the parser applies to a trimmed value and to
each bracketed-array item: if it starts and ends with a matching double or
single quote, `slice(1, -1)`. -/
def stripQuotes (v : Str) : Str :=
  if (startsWithL ['"'] v && endsWithL ['"'] v)
      || (startsWithL ['\''] v && endsWithL ['\''] v) then (v.drop 1).dropLast
  else v

/-- Parsing one frontmatter line: split at the first `:` (skip the line when
there is none), trim, unwrap quotes, then classify the value as a bracketed
comma list, a boolean literal, or a raw string. -/
def applyFMLine (fm : Frontmatter) (line : Str) : Frontmatter :=
  match idxOfC ':' line with
  | none => fm
  | some ci =>
    let key := trimChars (line.take ci)
    let value := stripQuotes (trimChars (line.drop (ci + 1)))
    if startsWithL "[".data value && endsWithL "]".data value then
      let arrayContent := (value.drop 1).dropLast
      let items := (splitChar ',' arrayContent).map (fun it => stripQuotes (trimChars it))
      setFM fm key (.arr (items.filter (fun i => !i.isEmpty)))
    else if value = "true".data then setFM fm key (.bool true)
    else if value = "false".data then setFM fm key (.bool false)
    else setFM fm key (.str value)

/-- `parseFrontmatter` of part_000:  the regex
`^---\n([\s\S]*?)\n---\n([\s\S]*)$` — the file must start with `---\n`, the
header runs to the first later `\n---\n`, the remainder is the body — then
line-by-line key/value assignment, and the body is trimmed.  `none` models
the thrown `Invalid markdown file` error. -/
def parseFrontmatter (fileContent : Str) : Option (Frontmatter × Str) :=
  if startsWithL "---\n".data fileContent then
    match splitOnFirst "\n---\n".data (fileContent.drop 4) with
    | some (fmStr, content) =>
      some ((splitChar '\n' fmStr).foldl applyFMLine {}, trimChars content)
    | none => none
  else none

/-- A pulled blog post (`BlogPost` of sync-from-notion.ts). -/
structure BlogPost where
  id : Str
  title : Str
  slug : Str
  date : Str
  tags : List Str
  content : Str
deriving DecidableEq, Repr

/-- `title.replace(/"/g, '\\"')` — escape double quotes. -/
def escQ : Str → Str
  | [] => []
  | c :: cs => if c = '"' then '\\' :: '"' :: escQ cs else c :: escQ cs

/-- `generateFrontmatter` of sync-from-notion.ts: `---`, quoted and escaped
title, raw date and slug, a single-quoted tag list when there are tags,
`draft: false`, `---`, joined by newlines. -/
def generateFrontmatter (post : BlogPost) : Str :=
  joinSep "\n".data
    (["---".data,
      "title: \"".data ++ escQ post.title ++ ['"'],
      "date: ".data ++ post.date,
      "slug: ".data ++ post.slug]
      ++ (if post.tags.length > 0 then
            ["tags: [".data
              ++ joinSep ", ".data (post.tags.map (fun t => '\'' :: t ++ ['\'']))
              ++ [']']]
          else [])
      ++ ["draft: false".data, "---".data])

example : parseFrontmatter "---\ntitle: \"Hello, World\"\ndate: 2024-01-01\n---\nBody".data
    = some ({ title := .str "Hello, World".data, date := .str "2024-01-01".data },
            "Body".data) := by decide
example : parseFrontmatter "---\ntags: ['a', 'b']\ndraft: true\n---\nx".data
    = some ({ tags := some (.arr ["a".data, "b".data]), draft := some (.bool true) },
            "x".data) := by decide
example : parseFrontmatter "no frontmatter".data = none := by decide
example : generateFrontmatter
      { id := [], title := "Hi".data, slug := "hi".data, date := "2024-01-01".data,
        tags := ["a".data], content := [] }
    = "---\ntitle: \"Hi\"\ndate: 2024-01-01\nslug: hi\ntags: ['a']\ndraft: false\n---".data := by
  decide

theorem escQ_id : ∀ {t : Str}, '"' ∉ t → escQ t = t
  | [], _ => rfl
  | c :: cs, h => by
    have hc : c ≠ '"' := fun hEq => h (hEq ▸ List.mem_cons_self _ _)
    simp [escQ, hc, escQ_id (fun hm => h (List.mem_cons_of_mem _ hm))]

theorem startsWithL_append_self : ∀ (a r : Str), startsWithL a (a ++ r) = true
  | [], _ => rfl
  | c :: cs, r => by simp [startsWithL, startsWithL_append_self cs r]

theorem trimChars_cons_space {c : Char} (l : Str) (h : isJsSpace c = true) :
    trimChars (c :: l) = trimChars l := by
  unfold trimChars
  rw [List.dropWhile_cons_of_pos h]

theorem trimChars_wrapped {a b : Char} (x : Str) (ha : isJsSpace a = false)
    (hb : isJsSpace b = false) : trimChars (a :: x ++ [b]) = a :: x ++ [b] := by
  unfold trimChars
  rw [List.cons_append, List.dropWhile_cons_of_neg (by simp [ha]), ← List.cons_append]
  have hrev : ((a :: x) ++ [b]).reverse = b :: (a :: x).reverse := by
    rw [List.reverse_append]
    rfl
  rw [hrev, List.dropWhile_cons_of_neg (by simp [hb]), ← hrev, List.reverse_reverse]

theorem endsWithL_concat (q : Char) (x : Str) : endsWithL [q] (x ++ [q]) = true := by
  unfold endsWithL
  rw [List.reverse_append]
  simp [startsWithL]

theorem stripQuotes_dquote (x : Str) : stripQuotes ('"' :: x ++ ['"']) = x := by
  unfold stripQuotes
  rw [if_pos]
  · rw [show ('"' :: x ++ ['"']).drop 1 = x ++ ['"'] from rfl, List.dropLast_concat]
  · have h1 : startsWithL ['"'] ('"' :: x ++ ['"']) = true := by
      simp [List.cons_append, startsWithL]
    have h2 : endsWithL ['"'] ('"' :: x ++ ['"']) = true := endsWithL_concat '"' ('"' :: x)
    rw [h1, h2]
    rfl

theorem stripQuotes_squote (x : Str) : stripQuotes ('\'' :: x ++ ['\'']) = x := by
  unfold stripQuotes
  rw [if_pos]
  · rw [show ('\'' :: x ++ ['\'']).drop 1 = x ++ ['\''] from rfl, List.dropLast_concat]
  · have h1 : startsWithL ['\''] ('\'' :: x ++ ['\'']) = true := by
      simp [List.cons_append, startsWithL]
    have h2 : endsWithL ['\''] ('\'' :: x ++ ['\'']) = true :=
      endsWithL_concat '\'' ('\'' :: x)
    rw [h1, h2]
    rfl

theorem idxOfC_concrete {c : Char} :
    ∀ {A : Str} (r : Str), c ∉ A → idxOfC c (A ++ c :: r) = some A.length
  | [], r, _ => by simp [idxOfC]
  | d :: ds, r, h => by
    have hd : d ≠ c := fun hEq => h (hEq ▸ List.mem_cons_self _ _)
    simp [idxOfC, hd, idxOfC_concrete r (fun hm => h (List.mem_cons_of_mem _ hm))]

theorem keyLine_take {A R : Str} : (A ++ ':' :: R).take A.length = A :=
  List.take_left _ _

theorem keyLine_drop {A R : Str} : (A ++ ':' :: R).drop (A.length + 1) = R := by
  rw [show A ++ ':' :: R = (A ++ [':']) ++ R from by simp, List.drop_left' (by simp)]

theorem mem_joinSep {c : Char} {sep : Str} :
    ∀ {ls : List Str}, c ∈ joinSep sep ls → c ∈ sep ∨ ∃ m ∈ ls, c ∈ m
  | [], h => by simp [joinSep] at h
  | [m], h => Or.inr ⟨m, List.mem_cons_self _ _, h⟩
  | m :: m' :: ms, h => by
    rw [joinSep] at h
    rcases List.mem_append.mp h with h | h
    · rcases List.mem_append.mp h with h | h
      · exact Or.inr ⟨m, List.mem_cons_self _ _, h⟩
      · exact Or.inl h
    · rcases mem_joinSep h with h | ⟨x, hx, hcx⟩
      · exact Or.inl h
      · exact Or.inr ⟨x, List.mem_cons_of_mem _ hx, hcx⟩

theorem joinSep_cons (sep a : Str) {l : List Str} (h : l ≠ []) :
    joinSep sep (a :: l) = a ++ sep ++ joinSep sep l := by
  cases l with
  | nil => exact absurd rfl h
  | cons b t => rw [joinSep]

theorem joinSep_concat (sep x : Str) :
    ∀ {l : List Str}, l ≠ [] → joinSep sep (l ++ [x]) = joinSep sep l ++ sep ++ x
  | [], h => absurd rfl h
  | [m], _ => by simp [joinSep]
  | m :: m' :: ms, _ => by
    have ih := joinSep_concat sep x (List.cons_ne_nil m' ms)
    rw [show (m :: m' :: ms) ++ [x] = m :: ((m' :: ms) ++ [x]) from rfl,
      joinSep_cons sep m (by simp), ih, joinSep]
    simp [List.append_assoc]

theorem splitOnFirst_self (sep rest : Str) (h : sep ≠ []) :
    splitOnFirst sep (sep ++ rest) = some ([], rest) := by
  cases sep with
  | nil => exact absurd rfl h
  | cons c cs =>
    rw [List.cons_append, splitOnFirst,
      if_pos (show startsWithL (c :: cs) (c :: (cs ++ rest)) = true from
        startsWithL_append_self (c :: cs) rest)]
    rw [show c :: (cs ++ rest) = (c :: cs) ++ rest from rfl, List.drop_left]

theorem splitOnFirst_skip {A : Str} (T : Str) (hA : '\n' ∉ A) :
    splitOnFirst "\n---\n".data (A ++ T)
      = (splitOnFirst "\n---\n".data T).map (fun p => (A ++ p.1, p.2)) := by
  induction A with
  | nil =>
    cases h : splitOnFirst "\n---\n".data T with
    | none => simp [h]
    | some p => simp [h]
  | cons c A' ih =>
    have hc : ¬('\n' = c) := fun hEq => hA (hEq ▸ List.mem_cons_self _ _)
    have hstart : startsWithL "\n---\n".data (c :: (A' ++ T)) = false := by
      simp [startsWithL, hc]
    rw [List.cons_append, splitOnFirst, if_neg (by rw [hstart]; exact Bool.false_ne_true),
      ih (fun hm => hA (List.mem_cons_of_mem _ hm))]
    cases h : splitOnFirst "\n---\n".data T with
    | none => simp
    | some p => simp

theorem joinSep_head_cons (sep : Str) {m : Str} (ms : List Str) {c : Char} {cs : Str}
    (hm : m = c :: cs) : ∃ t, joinSep sep (m :: ms) = c :: t := by
  cases ms with
  | nil => exact ⟨cs, hm⟩
  | cons m' ms' =>
    subst hm
    rw [joinSep_cons _ _ (List.cons_ne_nil _ _)]
    exact ⟨cs ++ sep ++ joinSep sep (m' :: ms'), by simp⟩

theorem splitOnFirst_joinSep (rest : Str) :
    ∀ (mids : List Str), mids ≠ [] →
      (∀ m ∈ mids, m ≠ [] ∧ '\n' ∉ m ∧ headHyphenFree m = true) →
      splitOnFirst "\n---\n".data (joinSep "\n".data mids ++ "\n---\n".data ++ rest)
        = some (joinSep "\n".data mids, rest)
  | [], h, _ => absurd rfl h
  | [m], _, hm => by
    rw [joinSep, List.append_assoc,
      splitOnFirst_skip _ (hm m (List.mem_cons_self _ _)).2.1,
      splitOnFirst_self _ _ (by decide)]
    simp
  | m :: m' :: ms, _, hm => by
    have hm1 := hm m (List.mem_cons_self _ _)
    have hm2 := hm m' (List.mem_cons_of_mem _ (List.mem_cons_self _ _))
    have ih := splitOnFirst_joinSep rest (m' :: ms) (List.cons_ne_nil _ _)
      (fun x hx => hm x (List.mem_cons_of_mem _ hx))
    rw [joinSep_cons _ _ (List.cons_ne_nil _ _)]
    rw [List.append_assoc, List.append_assoc, List.append_assoc,
      splitOnFirst_skip _ hm1.2.1]
    -- the scanned text now starts with the joining newline
    obtain ⟨c, cs, hm'⟩ : ∃ c cs, m' = c :: cs := by
      cases hmm : m' with
      | nil => exact absurd hmm hm2.1
      | cons c cs => exact ⟨c, cs, rfl⟩
    obtain ⟨t, ht⟩ := joinSep_head_cons "\n".data ms hm'
    have hc : ¬('-' = c) := by
      intro hEq
      rw [hm', ← hEq] at hm2
      simp [headHyphenFree] at hm2
    have hstart : startsWithL "\n---\n".data
        ('\n' :: (joinSep "\n".data (m' :: ms) ++ ("\n---\n".data ++ rest))) = false := by
      rw [ht]
      simp [startsWithL, hc]
    rw [show "\n".data ++ (joinSep "\n".data (m' :: ms) ++ ("\n---\n".data ++ rest))
        = '\n' :: (joinSep "\n".data (m' :: ms) ++ ("\n---\n".data ++ rest)) from rfl,
      splitOnFirst, if_neg (by rw [hstart]; exact Bool.false_ne_true)]
    rw [show joinSep "\n".data (m' :: ms) ++ ("\n---\n".data ++ rest)
        = joinSep "\n".data (m' :: ms) ++ "\n---\n".data ++ rest from by simp, ih]
    simp

theorem applyFMLine_plain (fm : Frontmatter) (A v : Str) (hk : ':' ∉ A)
    (hv1 : trimChars v = v)
    (hv2 : ((startsWithL ['"'] v && endsWithL ['"'] v)
      || (startsWithL ['\''] v && endsWithL ['\''] v)) = false)
    (hv3 : (startsWithL "[".data v && endsWithL "]".data v) = false)
    (hv4 : v ≠ "true".data) (hv5 : v ≠ "false".data) :
    applyFMLine fm (A ++ ':' :: ' ' :: v) = setFM fm (trimChars A) (.str v) := by
  unfold applyFMLine
  rw [idxOfC_concrete (' ' :: v) hk]
  simp only [keyLine_take, keyLine_drop]
  have hstrip : stripQuotes v = v := by
    unfold stripQuotes
    rw [hv2]
    rfl
  rw [trimChars_cons_space v (by decide), hv1, hstrip,
    if_neg (by rw [hv3]; exact Bool.false_ne_true), if_neg hv4, if_neg hv5]

theorem applyFMLine_title (fm : Frontmatter) (t : Str) (hq : '"' ∉ t)
    (hb : (startsWithL "[".data t && endsWithL "]".data t) = false)
    (ht : t ≠ "true".data) (hf : t ≠ "false".data) :
    applyFMLine fm ("title: \"".data ++ escQ t ++ ['"'])
      = { fm with title := .str t } := by
  rw [escQ_id hq]
  rw [show "title: \"".data ++ t ++ ['"']
      = "title".data ++ ':' :: (' ' :: (('"' :: t) ++ ['"'])) from by simp]
  unfold applyFMLine
  rw [idxOfC_concrete _ (by decide)]
  simp only [keyLine_take, keyLine_drop]
  rw [trimChars_cons_space _ (by decide), trimChars_wrapped t (by decide) (by decide),
    stripQuotes_dquote t,
    if_neg (by rw [hb]; exact Bool.false_ne_true), if_neg ht, if_neg hf]
  rw [show trimChars "title".data = "title".data from by decide]
  simp [setFM]

theorem applyFMLine_date (fm : Frontmatter) (v : Str)
    (hv1 : trimChars v = v)
    (hv2 : ((startsWithL ['"'] v && endsWithL ['"'] v)
      || (startsWithL ['\''] v && endsWithL ['\''] v)) = false)
    (hv3 : (startsWithL "[".data v && endsWithL "]".data v) = false)
    (hv4 : v ≠ "true".data) (hv5 : v ≠ "false".data) :
    applyFMLine fm ("date: ".data ++ v) = { fm with date := .str v } := by
  rw [show "date: ".data ++ v = "date".data ++ ':' :: ' ' :: v from rfl,
    applyFMLine_plain fm _ v (by decide) hv1 hv2 hv3 hv4 hv5,
    show trimChars "date".data = "date".data from by decide]
  simp [setFM]

theorem applyFMLine_slug (fm : Frontmatter) (v : Str)
    (hv1 : trimChars v = v)
    (hv2 : ((startsWithL ['"'] v && endsWithL ['"'] v)
      || (startsWithL ['\''] v && endsWithL ['\''] v)) = false)
    (hv3 : (startsWithL "[".data v && endsWithL "]".data v) = false)
    (hv4 : v ≠ "true".data) (hv5 : v ≠ "false".data) :
    applyFMLine fm ("slug: ".data ++ v) = { fm with slug := some (.str v) } := by
  rw [show "slug: ".data ++ v = "slug".data ++ ':' :: ' ' :: v from rfl,
    applyFMLine_plain fm _ v (by decide) hv1 hv2 hv3 hv4 hv5,
    show trimChars "slug".data = "slug".data from by decide]
  simp [setFM]

theorem applyFMLine_draft (fm : Frontmatter) :
    applyFMLine fm "draft: false".data = { fm with draft := some (.bool false) } := by
  rw [show ("draft: false".data : Str) = "draft".data ++ ':' :: ' ' :: "false".data from rfl]
  unfold applyFMLine
  rw [idxOfC_concrete _ (by decide)]
  simp only [keyLine_take, keyLine_drop]
  rw [trimChars_cons_space _ (by decide)]
  rw [show trimChars "false".data = "false".data from by decide,
    show stripQuotes "false".data = "false".data from by decide]
  rw [if_neg (by decide), if_neg (by decide)]
  rw [show trimChars "draft".data = "draft".data from by decide]
  simp [setFM]

theorem splitChar_cons_ne {c d : Char} (ds : Str) (h : ¬(d = c)) :
    splitChar c (d :: ds)
      = match splitChar c ds with
        | s :: ss => (d :: s) :: ss
        | [] => [[d]] := by
  rw [splitChar, if_neg h]

theorem comma_not_mem_quoted {t : Str} (h : ',' ∉ t) :
    ',' ∉ ('\'' :: t ++ ['\''] : Str) := by
  intro hm
  exact h (by simpa using hm)

theorem splitChar_comma_tags :
    ∀ (t1 : Str) (ts : List Str), ',' ∉ t1 → (∀ t ∈ ts, ',' ∉ t) →
      splitChar ',' (joinSep ", ".data ((t1 :: ts).map (fun t => '\'' :: t ++ ['\''])))
        = ('\'' :: t1 ++ ['\'']) :: ts.map (fun t => ' ' :: '\'' :: t ++ ['\''])
  | t1, [], h1, _ => by
    rw [List.map_cons, List.map_nil, joinSep, List.map_nil,
      splitChar_no_sep (comma_not_mem_quoted h1)]
  | t1, t2 :: ts', h1, h2 => by
    have ih := splitChar_comma_tags t2 ts' (h2 t2 (List.mem_cons_self _ _))
      (fun t ht => h2 t (List.mem_cons_of_mem _ ht))
    rw [List.map_cons, joinSep_cons _ _ (by simp)]
    rw [show ('\'' :: t1 ++ ['\'']) ++ ", ".data
          ++ joinSep ", ".data ((t2 :: ts').map (fun t => '\'' :: t ++ ['\'']))
        = ('\'' :: t1 ++ ['\'']) ++ ',' ::
            (' ' :: joinSep ", ".data ((t2 :: ts').map (fun t => '\'' :: t ++ ['\''])))
      from by simp]
    rw [splitChar_append_sep _ (comma_not_mem_quoted h1),
      splitChar_cons_ne _ (by decide), ih, List.map_cons]
    rfl

theorem stripTrim_tagItem (t : Str) :
    stripQuotes (trimChars ('\'' :: t ++ ['\''])) = t := by
  rw [trimChars_wrapped t (by decide) (by decide), stripQuotes_squote]

theorem stripTrim_tagItemSpace (t : Str) :
    stripQuotes (trimChars (' ' :: '\'' :: t ++ ['\''])) = t := by
  rw [show (' ' :: '\'' :: t ++ ['\''] : Str) = ' ' :: (('\'' :: t) ++ ['\'']) from by simp,
    trimChars_cons_space _ (by decide)]
  exact stripTrim_tagItem t

theorem map_stripTrim_space : ∀ (ts : List Str),
    (ts.map (fun t => ' ' :: '\'' :: t ++ ['\''])).map (fun it => stripQuotes (trimChars it))
      = ts
  | [] => rfl
  | t :: ts => by
    rw [List.map_cons, List.map_cons, stripTrim_tagItemSpace, map_stripTrim_space ts]

theorem applyFMLine_tags (fm : Frontmatter) (tags : List Str) (h1 : tags ≠ [])
    (h2 : ∀ t ∈ tags, t ≠ [] ∧ ',' ∉ t) :
    applyFMLine fm ("tags: [".data
        ++ joinSep ", ".data (tags.map (fun t => '\'' :: t ++ ['\''])) ++ [']'])
      = { fm with tags := some (.arr tags) } := by
  obtain ⟨t1, ts, rfl⟩ : ∃ t1 ts, tags = t1 :: ts := by
    cases tags with
    | nil => exact absurd rfl h1
    | cons a l => exact ⟨a, l, rfl⟩
  rw [show "tags: [".data
        ++ joinSep ", ".data ((t1 :: ts).map (fun t => '\'' :: t ++ ['\''])) ++ [']']
      = "tags".data ++ ':' :: (' ' :: (('[' ::
          joinSep ", ".data ((t1 :: ts).map (fun t => '\'' :: t ++ ['\'']))) ++ [']']))
    from by simp]
  unfold applyFMLine
  rw [idxOfC_concrete _ (by decide)]
  simp only [keyLine_take, keyLine_drop]
  rw [trimChars_cons_space _ (by decide)]
  rw [show ('[' :: joinSep ", ".data ((t1 :: ts).map (fun t => '\'' :: t ++ ['\'']))) ++ [']']
      = '[' :: joinSep ", ".data ((t1 :: ts).map (fun t => '\'' :: t ++ ['\''])) ++ [']']
    from rfl]
  rw [trimChars_wrapped _ (by decide) (by decide)]
  have hstrip : stripQuotes ('[' ::
      joinSep ", ".data ((t1 :: ts).map (fun t => '\'' :: t ++ ['\''])) ++ [']'])
      = '[' :: joinSep ", ".data ((t1 :: ts).map (fun t => '\'' :: t ++ ['\''])) ++ [']'] := by
    unfold stripQuotes
    rw [if_neg]
    simp [List.cons_append, startsWithL]
  rw [hstrip, if_pos (by
    rw [show startsWithL "[".data ('[' ::
        joinSep ", ".data ((t1 :: ts).map (fun t => '\'' :: t ++ ['\''])) ++ [']']) = true
      from by simp [List.cons_append, startsWithL]]
    rw [endsWithL_concat ']' _]
    rfl)]
  rw [show ('[' :: joinSep ", ".data ((t1 :: ts).map (fun t => '\'' :: t ++ ['\''])) ++ [']']).drop 1
      = joinSep ", ".data ((t1 :: ts).map (fun t => '\'' :: t ++ ['\''])) ++ [']'] from rfl,
    List.dropLast_concat]
  rw [splitChar_comma_tags t1 ts (h2 t1 (List.mem_cons_self _ _)).2
    (fun t ht => (h2 t (List.mem_cons_of_mem _ ht)).2)]
  rw [List.map_cons, stripTrim_tagItem, map_stripTrim_space]
  rw [List.filter_eq_self.mpr (by
    intro a ha
    rcases List.mem_cons.mp ha with rfl | ha'
    · simp [isEmpty_false_of_ne_nil (h2 a (List.mem_cons_self _ _)).1]
    · simp [isEmpty_false_of_ne_nil (h2 a (List.mem_cons_of_mem _ ha')).1])]
  rw [show trimChars "tags".data = "tags".data from by decide]
  simp [setFM]

/-- Restrictions on a raw (unquoted) generated value — date or slug — under
which the parser reads it back verbatim: no newline, trim-stable, not
quote-wrapped, not bracket-wrapped, not a boolean literal. -/
def plainOk (v : Str) : Prop :=
  '\n' ∉ v ∧ trimChars v = v ∧
  ((startsWithL ['"'] v && endsWithL ['"'] v)
    || (startsWithL ['\''] v && endsWithL ['\''] v)) = false ∧
  (startsWithL "[".data v && endsWithL "]".data v) = false ∧
  v ≠ "true".data ∧ v ≠ "false".data

/-- Restrictions on a title under which quoting-then-parsing returns it
verbatim: no double quote (escaping is not undone by the parser), no
newline, not bracket-wrapped, not a boolean literal. -/
def titleOk (t : Str) : Prop :=
  '"' ∉ t ∧ '\n' ∉ t ∧
  (startsWithL "[".data t && endsWithL "]".data t) = false ∧
  t ≠ "true".data ∧ t ≠ "false".data

/-- Restrictions on a tag under which the bracketed single-quoted list
round-trips: non-empty, no comma, no newline. -/
def tagOk (t : Str) : Prop := t ≠ [] ∧ ',' ∉ t ∧ '\n' ∉ t

/-- The lines `generateFrontmatter` places between the two `---` fences. -/
def fmMidLines (p : BlogPost) : List Str :=
  ["title: \"".data ++ escQ p.title ++ ['"'],
   "date: ".data ++ p.date,
   "slug: ".data ++ p.slug]
  ++ (if p.tags.length > 0 then
        ["tags: [".data
          ++ joinSep ", ".data (p.tags.map (fun t => '\'' :: t ++ ['\'']))
          ++ [']']]
      else [])
  ++ ["draft: false".data]

theorem newline_not_mem_tagsLine {tags : List Str} (h : ∀ t ∈ tags, '\n' ∉ t) :
    '\n' ∉ "tags: [".data
      ++ joinSep ", ".data (tags.map (fun t => '\'' :: t ++ ['\''])) ++ [']'] := by
  intro hm
  rcases List.mem_append.mp hm with hm | hm
  · rcases List.mem_append.mp hm with hm | hm
    · exact absurd hm (by decide)
    · rcases mem_joinSep hm with hsep | ⟨m, hmem, hc⟩
      · exact absurd hsep (by decide)
      · obtain ⟨t, htmem, rfl⟩ := List.mem_map.mp hmem
        exact (h t htmem) (by simpa using hc)
  · exact absurd (List.mem_singleton.mp hm) (by decide)

theorem fmMidLines_ok (p : BlogPost) (ht : titleOk p.title) (hd : plainOk p.date)
    (hs : plainOk p.slug) (htags : ∀ t ∈ p.tags, tagOk t) :
    ∀ m ∈ fmMidLines p, m ≠ [] ∧ '\n' ∉ m ∧ headHyphenFree m = true := by
  intro m hm
  unfold fmMidLines at hm
  rw [escQ_id ht.1] at hm
  rcases List.mem_append.mp hm with hm | hm
  · rcases List.mem_append.mp hm with hm | hm
    · simp only [List.mem_cons, List.not_mem_nil, or_false] at hm
      rcases hm with rfl | rfl | rfl
      · refine ⟨by simp, ?_, by simp [List.cons_append, headHyphenFree]⟩
        intro hnl
        rcases List.mem_append.mp hnl with hnl | hnl
        · rcases List.mem_append.mp hnl with hnl | hnl
          · exact absurd hnl (by decide)
          · exact ht.2.1 hnl
        · exact absurd (List.mem_singleton.mp hnl) (by decide)
      · refine ⟨by simp, ?_, by simp [List.cons_append, headHyphenFree]⟩
        intro hnl
        rcases List.mem_append.mp hnl with hnl | hnl
        · exact absurd hnl (by decide)
        · exact hd.1 hnl
      · refine ⟨by simp, ?_, by simp [List.cons_append, headHyphenFree]⟩
        intro hnl
        rcases List.mem_append.mp hnl with hnl | hnl
        · exact absurd hnl (by decide)
        · exact hs.1 hnl
    · by_cases hlen : p.tags.length > 0
      · rw [if_pos hlen, List.mem_singleton] at hm
        subst hm
        refine ⟨by simp, newline_not_mem_tagsLine (fun t htm => (htags t htm).2.2), ?_⟩
        simp [List.cons_append, headHyphenFree]
      · rw [if_neg hlen] at hm
        exact absurd hm (by simp)
  · rw [List.mem_singleton] at hm
    subst hm
    exact ⟨by decide, by decide, by decide⟩

theorem generateFrontmatter_shape (p : BlogPost) (body : Str) :
    generateFrontmatter p ++ "\n\n".data ++ body
      = "---\n".data
        ++ (joinSep "\n".data (fmMidLines p) ++ "\n---\n".data ++ ('\n' :: body)) := by
  unfold generateFrontmatter fmMidLines
  by_cases hlen : p.tags.length > 0
  · rw [if_pos hlen]
    simp [joinSep, List.append_assoc]
  · rw [if_neg hlen]
    simp [joinSep, List.append_assoc]

/-- C5 (amended): for frontmatter field values within the parser's verbatim
fragment — title without double quotes/newlines and not bracket- or
boolean-shaped, trim-stable unquoted date and slug, non-empty tags without
commas or newlines — re-serialising with `generateFrontmatter` and parsing
with `parseFrontmatter` reproduces exactly the same title, date, slug and
tags (and the body, trimmed). -/
theorem frontmatter_roundtrip_C5 (p : BlogPost) (body : Str)
    (ht : titleOk p.title) (hd : plainOk p.date) (hs : plainOk p.slug)
    (htags : ∀ t ∈ p.tags, tagOk t) :
    parseFrontmatter (generateFrontmatter p ++ "\n\n".data ++ body)
      = some ({ title := .str p.title, date := .str p.date,
                slug := some (.str p.slug),
                tags := if p.tags.length > 0 then some (.arr p.tags) else none,
                draft := some (.bool false) },
              trimChars body) := by
  have hmids := fmMidLines_ok p ht hd hs htags
  have hmids_ne : fmMidLines p ≠ [] := by
    unfold fmMidLines
    simp
  rw [generateFrontmatter_shape]
  unfold parseFrontmatter
  rw [if_pos (startsWithL_append_self "---\n".data _), List.drop_left' (by rfl),
    splitOnFirst_joinSep ('\n' :: body) _ hmids_ne hmids]
  simp only []
  rw [splitChar_joinSep hmids_ne (fun m hm => (hmids m hm).2.1),
    trimChars_cons_space body (by decide)]
  unfold fmMidLines
  by_cases hlen : p.tags.length > 0
  · have htagsne : p.tags ≠ [] := by
      intro hnil
      rw [hnil] at hlen
      simp at hlen
    rw [if_pos hlen, if_pos hlen]
    rw [show (["title: \"".data ++ escQ p.title ++ ['"'], "date: ".data ++ p.date,
          "slug: ".data ++ p.slug] ++
          ["tags: [".data
            ++ joinSep ", ".data (p.tags.map (fun t => '\'' :: t ++ ['\'']))
            ++ [']']] ++ ["draft: false".data] : List Str)
        = ("title: \"".data ++ escQ p.title ++ ['"']) :: ("date: ".data ++ p.date)
          :: ("slug: ".data ++ p.slug)
          :: ("tags: [".data
              ++ joinSep ", ".data (p.tags.map (fun t => '\'' :: t ++ ['\'']))
              ++ [']'])
          :: ["draft: false".data] from by simp]
    rw [List.foldl_cons, applyFMLine_title _ p.title ht.1 ht.2.2.1 ht.2.2.2.1 ht.2.2.2.2,
      List.foldl_cons, applyFMLine_date _ p.date hd.2.1 hd.2.2.1 hd.2.2.2.1
        hd.2.2.2.2.1 hd.2.2.2.2.2,
      List.foldl_cons, applyFMLine_slug _ p.slug hs.2.1 hs.2.2.1 hs.2.2.2.1
        hs.2.2.2.2.1 hs.2.2.2.2.2,
      List.foldl_cons, applyFMLine_tags _ p.tags htagsne
        (fun t ht' => ⟨(htags t ht').1, (htags t ht').2.1⟩),
      List.foldl_cons, applyFMLine_draft, List.foldl_nil]
  · rw [if_neg hlen, if_neg hlen]
    rw [show (["title: \"".data ++ escQ p.title ++ ['"'], "date: ".data ++ p.date,
          "slug: ".data ++ p.slug] ++ [] ++ ["draft: false".data] : List Str)
        = ("title: \"".data ++ escQ p.title ++ ['"']) :: ("date: ".data ++ p.date)
          :: ("slug: ".data ++ p.slug) :: ["draft: false".data] from by simp]
    rw [List.foldl_cons, applyFMLine_title _ p.title ht.1 ht.2.2.1 ht.2.2.2.1 ht.2.2.2.2,
      List.foldl_cons, applyFMLine_date _ p.date hd.2.1 hd.2.2.1 hd.2.2.2.1
        hd.2.2.2.2.1 hd.2.2.2.2.2,
      List.foldl_cons, applyFMLine_slug _ p.slug hs.2.1 hs.2.2.1 hs.2.2.2.1
        hs.2.2.2.2.1 hs.2.2.2.2.2,
      List.foldl_cons, applyFMLine_draft, List.foldl_nil]

instance (t : Str) : Decidable (titleOk t) := by unfold titleOk; infer_instance

instance (v : Str) : Decidable (plainOk v) := by unfold plainOk; infer_instance

instance (t : Str) : Decidable (tagOk t) := by unfold tagOk; infer_instance

/-- C5 witness at the spec's own example: `title: "Hello, World"`. -/
theorem frontmatter_roundtrip_C5_witness :
    parseFrontmatter (generateFrontmatter
        { id := [], title := "Hello, World".data, slug := "hello-world".data,
          date := "2024-01-01".data, tags := ["a".data], content := [] }
      ++ "\n\n".data ++ "Body".data)
      = some ({ title := .str "Hello, World".data, date := .str "2024-01-01".data,
                slug := some (.str "hello-world".data),
                tags := if (["a".data] : List Str).length > 0
                        then some (.arr ["a".data]) else none,
                draft := some (.bool false) }, trimChars "Body".data) :=
  frontmatter_roundtrip_C5
    { id := [], title := "Hello, World".data, slug := "hello-world".data,
      date := "2024-01-01".data, tags := ["a".data], content := [] }
    "Body".data (by decide) (by decide) (by decide) (by decide)

/-- The string carried by a parsed frontmatter value, `[]` for the
non-string variants. -/
def fmValStr : FMValue → Str
  | .str s => s
  | .bool _ => []
  | .arr _ => []

/-- C5 counterexample: the block `title: say "hi"` parses to the title
`say "hi"`, but re-serialising escapes the quotes (`title: "say \"hi\""`)
and the parser never unescapes, so the regenerated frontmatter does not
reproduce the title: the claim fails for titles containing a double
quote. -/
theorem frontmatter_roundtrip_C5_counterexample :
    (parseFrontmatter "---\ntitle: say \"hi\"\ndate: 2024-01-01\nslug: s\n---\nBody".data).map
        (fun r => fmValStr r.1.title) = some "say \"hi\"".data ∧
    (parseFrontmatter (generateFrontmatter
        { id := [], title := "say \"hi\"".data, slug := "s".data,
          date := "2024-01-01".data, tags := [], content := [] }
      ++ "\n\n".data ++ "Body".data)).map (fun r => fmValStr r.1.title)
      ≠ some "say \"hi\"".data := by decide

/-! ## Pull pipeline (`sync-from-notion.ts`): sync state, query filter,
page extraction, year-bucketed filenames, and `syncPosts` -/

/-- The `.notion-sync-state.json` file: missing, unreadable/corrupt (the
`JSON.parse` throw is caught), or valid with a stored `lastSyncTime`. -/
inductive StateFile : Type
  | absent
  | corrupt
  | valid (lastSyncTime : Str)
deriving DecidableEq, Repr

/-- `loadSyncState`: `null` (= `none`) when the file is missing or
unreadable, otherwise the stored timestamp. -/
def loadSyncState : StateFile → Option Str
  | .absent => none
  | .corrupt => none
  | .valid t => some t

/-- The query filter the pull script can attach: a
`timestamp: last_edited_time, after: <t>` filter. -/
inductive QueryFilter : Type
  | lastEditedAfter (timestamp : Str)
deriving DecidableEq, Repr

/-- JavaScript truthiness of a `string | null | undefined` value: `null`,
`undefined` and `""` are falsy. -/
def truthyS : Option Str → Bool
  | some s => !s.isEmpty
  | none => false

/-- Lines 94-101: `const filter = lastSyncTime ? { timestamp:
"last_edited_time", last_edited_time: { after: lastSyncTime } } :
undefined` — JS truthiness, so an empty-string `lastSyncTime` also means
no filter (a full sync). -/
def fetchFilter (lastSyncTime : Option Str) : Option QueryFilter :=
  if truthyS lastSyncTime then some (.lastEditedAfter (lastSyncTime.getD []))
  else none

/-- A returned Notion page after property extraction (`getPropertyValue` on
`Name`, `Slug`, `Published`, `Created time`, `Tags`), with the
`notion-to-md` conversion of its blocks as `markdown`.  `none` models a
missing property (`null`). -/
structure PageRaw where
  id : Str
  name : Option Str
  slugProp : Option Str
  published : Option Str
  created : Option Str
  tags : List Str
  markdown : Str
deriving DecidableEq, Repr

/-- JavaScript `a || b` on `string | null` values. -/
def jsOrS (a b : Option Str) : Option Str := if truthyS a then a else b

/-- JavaScript `a || b` where `b` is a plain string. -/
def strOr (o : Option Str) (dflt : Str) : Str :=
  match o with
  | some s => if s.isEmpty then dflt else s
  | none => dflt

/-- Lines 127-152: a page becomes a `BlogPost` when its title and date
(`Published` falling back to `Created time`) are truthy, with the slug
falling back to `generateSlug(title)`; otherwise it is skipped. -/
def pageToPost (p : PageRaw) : Option BlogPost :=
  let title := p.name
  let date := jsOrS p.published p.created
  if truthyS title && truthyS date then
    some { id := p.id, title := title.getD [],
           slug := strOr p.slugProp (generateSlug (title.getD [])),
           date := date.getD [], tags := p.tags, content := p.markdown }
  else none

/-- `fetchBlogPosts`: the one filter built before the pagination loop —
every issued query carries it — and the posts extracted from the returned
pages (all result batches concatenated; pagination only concatenates). -/
def fetchBlogPosts (pages : List PageRaw) (lastSyncTime : Option Str) :
    Option QueryFilter × List BlogPost :=
  (fetchFilter lastSyncTime, pages.filterMap pageToPost)

/-- C3 (amended): with a stored sync state holding a truthy (non-empty)
`lastSyncTime` the query filter is a `last_edited_time`-after filter at
exactly the stored timestamp; with no state file, an unreadable one, or an
empty stored timestamp (falsy under `lastSyncTime ? ... : undefined`), no
filter at all is applied (full sync). -/
theorem fetch_filter_C3 :
    (∀ (pages : List PageRaw) (t : Str), t ≠ [] →
      (fetchBlogPosts pages (loadSyncState (.valid t))).1
        = some (.lastEditedAfter t)) ∧
    (∀ pages : List PageRaw,
      (fetchBlogPosts pages (loadSyncState .absent)).1 = none) ∧
    (∀ pages : List PageRaw,
      (fetchBlogPosts pages (loadSyncState .corrupt)).1 = none) ∧
    (∀ pages : List PageRaw,
      (fetchBlogPosts pages (loadSyncState (.valid []))).1 = none) := by
  refine ⟨?_, fun _ => rfl, fun _ => rfl, fun _ => rfl⟩
  intro pages t ht
  unfold fetchBlogPosts fetchFilter
  simp [loadSyncState, truthyS, isEmpty_false_of_ne_nil ht]

/-- C3 witness: a stored ISO timestamp produces exactly the after-filter
at that timestamp. -/
theorem fetch_filter_C3_witness :
    (fetchBlogPosts [] (loadSyncState (.valid "2024-01-01T00:00:00.000Z".data))).1
      = some (.lastEditedAfter "2024-01-01T00:00:00.000Z".data) :=
  fetch_filter_C3.1 [] "2024-01-01T00:00:00.000Z".data (by decide)

/-- C3 counterexample: a state file holding `{"lastSyncTime": ""}` loads
(a sync state was loaded), yet the query carries no filter — the original
claim asserts a `last_edited_time`-after filter equal to the stored
(empty) timestamp whenever a state was loaded. -/
theorem fetch_filter_C3_counterexample :
    loadSyncState (.valid []) = some [] ∧
    (fetchBlogPosts [] (loadSyncState (.valid []))).1 = none ∧
    (fetchBlogPosts [] (loadSyncState (.valid []))).1
      ≠ some (.lastEditedAfter []) := by decide

/-- The local filesystem as the pull script sees it: the sync-state file
and the Markdown files, each `(directory, filename, content)`. -/
structure FS where
  stateFile : StateFile
  files : List (Str × Str × Str)
deriving DecidableEq, Repr

/-- `saveSyncState` (lines 43-45): overwrite the state file. -/
def saveSyncState (fs : FS) (t : Str) : FS := { fs with stateFile := .valid t }

/-- `fs.readdirSync(dir)`: the names of the files in `dir`. -/
def readdirNames (fs : FS) (dir : Str) : List Str :=
  (fs.files.filter (fun e => decide (e.1 = dir))).map (fun e => e.2.1)

def writeFileEntries : List (Str × Str × Str) → Str → Str → Str → List (Str × Str × Str)
  | [], d, n, c => [(d, n, c)]
  | e :: es, d, n, c =>
    if e.1 = d ∧ e.2.1 = n then (d, n, c) :: es else e :: writeFileEntries es d n c

/-- `fs.writeFileSync(path.join(dir, name), content)`: overwrite or create. -/
def writeFile (fs : FS) (dir name content : Str) : FS :=
  { fs with files := writeFileEntries fs.files dir name content }

/-- The external world of one pull run: the clock, the remote query (which
may throw), the `Date` library (year extraction and `getTime` ordering
key), and which file writes throw. -/
structure SyncEnv where
  now : Str
  fetchPosts : Option Str → Except Str (List BlogPost)
  getYear : Str → Str
  getTime : Str → Int
  writeFails : Str → Str → Bool

/-- `Map`-based grouping (lines 214-221): insertion order of first
occurrence, appending each post to its year bucket. -/
def addToGroup : List (Str × List BlogPost) → Str → BlogPost → List (Str × List BlogPost)
  | [], y, p => [(y, [p])]
  | (y', ps) :: rest, y, p =>
    if y' = y then (y', ps ++ [p]) :: rest else (y', ps) :: addToGroup rest y p

def groupByYear (env : SyncEnv) (posts : List BlogPost) : List (Str × List BlogPost) :=
  posts.foldl (fun g p => addToGroup g (env.getYear p.date) p) []

/-- Stable insertion step of `Array.prototype.sort` with the comparator
`(a, b) => getTime(a.date) - getTime(b.date)`. -/
def insertByKey (key : BlogPost → Int) (p : BlogPost) : List BlogPost → List BlogPost
  | [] => [p]
  | q :: qs => if key p ≤ key q then p :: q :: qs else q :: insertByKey key p qs

/-- Stable sort by ascending date key (lines 249-251). -/
def sortByKey (key : BlogPost → Int) (l : List BlogPost) : List BlogPost :=
  l.foldr (insertByKey key) []

/-- The `^(\d+)-` filename match with `parseInt` (lines 239-241). -/
def fileIdxOf (name : Str) : Option Nat :=
  let ds := name.takeWhile Char.isDigit
  if ds.isEmpty then none
  else match name.drop ds.length with
    | '-' :: _ => some (digitsToNat ds)
    | _ => none

/-- Highest numeric filename prefix among the existing files (lines 237-246). -/
def maxFileIdx (names : List Str) : Nat :=
  names.foldl (fun m n =>
    match fileIdxOf n with
    | some i => if i > m then i else m
    | none => m) 0

/-- Lines 253-270: each post overwrites the first existing file whose name
contains its slug as a substring; otherwise it gets
`String(maxIndex + newPostIndex + 1).padStart(2, "0")-<slug>.md` and the
new-post counter advances. -/
def assignNames (existing : List Str) (maxIdx : Nat) :
    Nat → List BlogPost → List (Str × BlogPost)
  | _, [] => []
  | newPostIndex, p :: ps =>
    match existing.find? (fun f => containsSub f p.slug) with
    | some f => (f, p) :: assignNames existing maxIdx newPostIndex ps
    | none =>
      (padStart2 (natDigits (maxIdx + newPostIndex + 1)) ++ '-' :: (p.slug ++ ".md".data),
        p) :: assignNames existing maxIdx (newPostIndex + 1) ps

/-- One year bucket's filename assignment: highest existing index, sort by
date, then the overwrite-or-new-index loop. -/
def yearAssignments (getTime : Str → Int) (existing : List Str)
    (posts : List BlogPost) : List (Str × BlogPost) :=
  assignNames existing (maxFileIdx existing) 0
    (sortByKey (fun p => getTime p.date) posts)

def blogRoot : Str := "src/content/blog".data

/-- `${frontmatter}\n\n${post.content}` (line 275). -/
def postFileContent (p : BlogPost) : Str :=
  generateFrontmatter p ++ "\n\n".data ++ p.content

/-- The write loop over one year's assignments; a throwing
`writeFileSync` aborts the run, keeping the files already written. -/
def writeAssigns (env : SyncEnv) : FS → Str → List (Str × BlogPost) → FS × Option Str
  | fs, _, [] => (fs, none)
  | fs, dir, (name, p) :: rest =>
    if env.writeFails dir name then (fs, some "write failed".data)
    else writeAssigns env (writeFile fs dir name (postFileContent p)) dir rest

/-- Lines 223-280 for one year: snapshot the directory, filter to `.md`,
assign filenames, write. -/
def writeYear (env : SyncEnv) (fs : FS) (year : Str) (yposts : List BlogPost) :
    FS × Option Str :=
  let dir := blogRoot ++ '/' :: year
  let existing := (readdirNames fs dir).filter (fun f => endsWithL ".md".data f)
  writeAssigns env fs dir (yearAssignments env.getTime existing yposts)

def writeAllYears (env : SyncEnv) : FS → List (Str × List BlogPost) → FS × Option Str
  | fs, [] => (fs, none)
  | fs, (year, yposts) :: rest =>
    match writeYear env fs year yposts with
    | (fs', some e) => (fs', some e)
    | (fs', none) => writeAllYears env fs' rest

/-- The tail of `syncPosts` after the write loop: propagate a throw, or
save the sync state recorded before the query. -/
def finishWrite (env : SyncEnv) : FS × Option Str → FS × Option Str
  | (fs', some e) => (fs', some e)
  | (fs', none) => (saveSyncState fs' env.now, none)

/-- `syncPosts` applied to the outcome of `fetchBlogPosts`: either the
fetch threw (error propagates, nothing written), or no posts came back
(state still saved), or the posts are written year by year and the state
is saved only afterwards. -/
def syncPostsGo (env : SyncEnv) (fs : FS) : Except Str (List BlogPost) → FS × Option Str
  | .error e => (fs, some e)
  | .ok posts =>
    if posts.isEmpty then (saveSyncState fs env.now, none)
    else finishWrite env (writeAllYears env fs (groupByYear env posts))

/-- `syncPosts` (lines 191-285): load state, record the clock before the
query, fetch (which may throw), then write and save state; any throw
propagates and never reaches the state save. -/
def syncPosts (env : SyncEnv) (fs : FS) : FS × Option Str :=
  syncPostsGo env fs (env.fetchPosts (loadSyncState fs.stateFile))

theorem writeAssigns_stateFile (env : SyncEnv) :
    ∀ (fs : FS) (dir : Str) (l : List (Str × BlogPost)),
      (writeAssigns env fs dir l).1.stateFile = fs.stateFile
  | _, _, [] => rfl
  | fs, dir, (name, p) :: rest => by
    rw [writeAssigns]
    by_cases h : env.writeFails dir name
    · simp [h]
    · simp only [h, Bool.false_eq_true, if_false]
      rw [writeAssigns_stateFile env _ dir rest]
      rfl

theorem writeYear_stateFile (env : SyncEnv) (fs : FS) (year : Str)
    (yposts : List BlogPost) : (writeYear env fs year yposts).1.stateFile = fs.stateFile :=
  writeAssigns_stateFile env fs _ _

theorem writeAllYears_stateFile (env : SyncEnv) :
    ∀ (fs : FS) (groups : List (Str × List BlogPost)),
      (writeAllYears env fs groups).1.stateFile = fs.stateFile
  | _, [] => rfl
  | fs, (year, yposts) :: rest => by
    rw [writeAllYears]
    cases hw : writeYear env fs year yposts with
    | mk fs' e =>
      cases e with
      | some err => simpa using congrArg (fun r => r.1.stateFile) hw ▸ writeYear_stateFile env fs year yposts
      | none =>
        have h1 : fs'.stateFile = fs.stateFile := by
          have := writeYear_stateFile env fs year yposts
          rw [hw] at this
          exact this
        simp only []
        rw [writeAllYears_stateFile env fs' rest, h1]

/-- C2: the sync-state file after a pull equals `valid now` — the timestamp
recorded before the query — exactly when the run finished without a throw,
and is otherwise untouched: a throw in the remote query, the conversion, or
any file write leaves the stored state unchanged. -/
theorem syncPosts_state_atomic_C2 :
    ∀ (env : SyncEnv) (fs : FS),
      (syncPosts env fs).1.stateFile
        = if (syncPosts env fs).2 = none then StateFile.valid env.now
          else fs.stateFile := by
  have hfin : ∀ (env : SyncEnv) (pr : FS × Option Str),
      (finishWrite env pr).1.stateFile
        = if (finishWrite env pr).2 = none then StateFile.valid env.now
          else pr.1.stateFile := by
    intro env pr
    rcases pr with ⟨fs', e⟩
    cases e with
    | some err => simp [finishWrite]
    | none => simp [finishWrite, saveSyncState]
  have hgo : ∀ (env : SyncEnv) (fs : FS) (r : Except Str (List BlogPost)),
      (syncPostsGo env fs r).1.stateFile
        = if (syncPostsGo env fs r).2 = none then StateFile.valid env.now
          else fs.stateFile := by
    intro env fs r
    cases r with
    | error e => simp [syncPostsGo]
    | ok posts =>
      unfold syncPostsGo
      by_cases hp : posts.isEmpty = true
      · simp [hp, saveSyncState]
      · simp only [hp, Bool.false_eq_true, if_false]
        rw [hfin env (writeAllYears env fs (groupByYear env posts))]
        rw [writeAllYears_stateFile env fs (groupByYear env posts)]
  intro env fs
  exact hgo env fs (env.fetchPosts (loadSyncState fs.stateFile))

/-- C9: when the query returns zero posts, the pull writes no Markdown
files yet still overwrites the sync-state file with the timestamp taken
before the query — the incremental window advances even though nothing was
fetched. -/
theorem syncPosts_empty_C9 (env : SyncEnv) (fs : FS)
    (h : env.fetchPosts (loadSyncState fs.stateFile) = .ok []) :
    syncPosts env fs = ({ stateFile := StateFile.valid env.now, files := fs.files }, none) := by
  unfold syncPosts
  rw [h]
  rfl

/-- A concrete environment whose remote query returns no posts. -/
def env9 : SyncEnv :=
  { now := "2024-06-01T00:00:00.000Z".data,
    fetchPosts := fun _ => .ok [],
    getYear := fun d => d.take 4,
    getTime := fun _ => 0,
    writeFails := fun _ _ => false }

/-- A concrete starting filesystem with a stored sync state and one file. -/
def fs9 : FS :=
  { stateFile := .valid "2024-01-01T00:00:00.000Z".data,
    files := [(blogRoot ++ '/' :: "2024".data, "01-a.md".data, "x".data)] }

/-- C9 witness: a zero-post run at a concrete environment. -/
theorem syncPosts_empty_C9_witness :
    syncPosts env9 fs9
      = ({ stateFile := StateFile.valid env9.now, files := fs9.files }, none) :=
  syncPosts_empty_C9 env9 fs9 rfl

theorem sortByKey_three (key : BlogPost → Int) (p1 p2 p3 : BlogPost)
    (h12 : key p1 < key p2) (h23 : key p2 < key p3) :
    sortByKey key [p3, p2, p1] = [p1, p2, p3] := by
  unfold sortByKey
  rw [List.foldr_cons, List.foldr_cons, List.foldr_cons, List.foldr_nil]
  rw [show insertByKey key p1 [] = [p1] from rfl]
  rw [insertByKey, if_neg (by omega)]
  rw [show insertByKey key p2 [] = [p2] from rfl]
  rw [insertByKey, if_neg (by omega), insertByKey, if_neg (by omega)]
  rw [show insertByKey key p3 [] = [p3] from rfl]

/-- C4: in a year directory with no numbered files, three posts with
ascending dates (arriving in the descending order the query returns) are
written as `01-`, `02-`, `03-` prefixed files in date order; and when a
post's slug occurs in an existing filename, that file is overwritten in
place and consumes no new index, so later new posts continue the strictly
increasing index sequence with no duplicate. -/
theorem year_filenames_C4 (getTime : Str → Int) (p1 p2 p3 q1 q2 q3 : BlogPost)
    (hp12 : getTime p1.date < getTime p2.date)
    (hp23 : getTime p2.date < getTime p3.date)
    (hq12 : getTime q1.date < getTime q2.date)
    (hq23 : getTime q2.date < getTime q3.date)
    (hs1 : q1.slug = "alpha".data) (hs2 : q2.slug = "beta".data)
    (hs3 : q3.slug = "gamma".data) :
    yearAssignments getTime [] [p3, p2, p1]
      = [("01-".data ++ p1.slug ++ ".md".data, p1),
         ("02-".data ++ p2.slug ++ ".md".data, p2),
         ("03-".data ++ p3.slug ++ ".md".data, p3)] ∧
    yearAssignments getTime ["01-alpha.md".data] [q3, q2, q1]
      = [("01-alpha.md".data, q1), ("02-beta.md".data, q2),
         ("03-gamma.md".data, q3)] := by
  constructor
  · unfold yearAssignments
    rw [sortByKey_three _ p1 p2 p3 hp12 hp23]
    rw [show maxFileIdx [] = 0 from rfl]
    simp only [assignNames, List.find?_nil]
    norm_num
    rw [show padStart2 (natDigits 1) = "01".data from by decide,
      show padStart2 (natDigits 2) = "02".data from by decide,
      show padStart2 (natDigits 3) = "03".data from by decide]
    simp [List.cons_append, List.append_assoc]
  · unfold yearAssignments
    rw [sortByKey_three _ q1 q2 q3 hq12 hq23]
    simp only [assignNames, hs1, hs2, hs3,
      show List.find? (fun f => containsSub f "alpha".data) ["01-alpha.md".data]
        = some "01-alpha.md".data from by decide,
      show List.find? (fun f => containsSub f "beta".data) ["01-alpha.md".data]
        = none from by decide,
      show List.find? (fun f => containsSub f "gamma".data) ["01-alpha.md".data]
        = none from by decide,
      show maxFileIdx ["01-alpha.md".data] = 1 from by decide]
    norm_num
    rw [show padStart2 (natDigits 2) = "02".data from by decide,
      show padStart2 (natDigits 3) = "03".data from by decide]
    simp [List.cons_append, List.append_assoc]

/-- A minimal concrete post for witnesses. -/
def post4 (slug date : Str) : BlogPost :=
  { id := [], title := slug, slug := slug, date := date, tags := [], content := [] }

/-- C4 witness: three posts with ascending dates into a fresh year
directory, and the same with one already-synced slug. -/
theorem year_filenames_C4_witness :
    yearAssignments (fun d => (d.length : Int)) []
        [post4 "c".data "xxx".data, post4 "b".data "xx".data, post4 "a".data "x".data]
      = [("01-a.md".data, post4 "a".data "x".data),
         ("02-b.md".data, post4 "b".data "xx".data),
         ("03-c.md".data, post4 "c".data "xxx".data)] ∧
    yearAssignments (fun d => (d.length : Int)) ["01-alpha.md".data]
        [post4 "gamma".data "xxx".data, post4 "beta".data "xx".data,
         post4 "alpha".data "x".data]
      = [("01-alpha.md".data, post4 "alpha".data "x".data),
         ("02-beta.md".data, post4 "beta".data "xx".data),
         ("03-gamma.md".data, post4 "gamma".data "xxx".data)] :=
  year_filenames_C4 (fun d => (d.length : Int))
    (post4 "a".data "x".data) (post4 "b".data "xx".data) (post4 "c".data "xxx".data)
    (post4 "alpha".data "x".data) (post4 "beta".data "xx".data)
    (post4 "gamma".data "xxx".data)
    (by decide) (by decide) (by decide) (by decide) rfl rfl rfl

/-! ## Push pipeline (`migrateToNotion`, part_000 lines 326-366) -/

/-- JavaScript truthiness of a parsed frontmatter value, as tested by
`!frontmatter.title || !frontmatter.date`: `""` and `false` are falsy;
arrays (even empty) are truthy. -/
def truthyFM : FMValue → Bool
  | .str s => !s.isEmpty
  | .bool b => b
  | .arr _ => true

/-- The remote side of the push run: what `createNotionPage` returns for
given properties and content (a page id, or a thrown error). -/
structure PushEnv where
  create : Frontmatter → Str → Except Str Str

/-- One file of the push loop: parse (a throw is caught and counted),
skip-and-count when title or date is falsy, otherwise create the page
(a throw is caught and counted).  Result: (successes, errors, page ids). -/
def processFile (env : PushEnv) (fileContent : Str) : Nat × Nat × List Str :=
  match parseFrontmatter fileContent with
  | none => (0, 1, [])
  | some (fm, content) =>
    if !truthyFM fm.title || !truthyFM fm.date then (0, 1, [])
    else
      match env.create fm content with
      | .ok pageId => (1, 0, [pageId])
      | .error _ => (0, 1, [])

/-- `migrateToNotion`: the per-file loop with its success/error counters
and the pages created, in order. -/
def migrateToNotion (env : PushEnv) : List Str → Nat × Nat × List Str
  | [] => (0, 0, [])
  | f :: fs =>
    let r := processFile env f
    let rest := migrateToNotion env fs
    (r.1 + rest.1, r.2.1 + rest.2.1, r.2.2 ++ rest.2.2)

theorem migrateToNotion_append (env : PushEnv) :
    ∀ (A B : List Str),
      migrateToNotion env (A ++ B)
        = ((migrateToNotion env A).1 + (migrateToNotion env B).1,
           (migrateToNotion env A).2.1 + (migrateToNotion env B).2.1,
           (migrateToNotion env A).2.2 ++ (migrateToNotion env B).2.2)
  | [], B => by simp [migrateToNotion]
  | f :: fs, B => by
    rw [List.cons_append, migrateToNotion, migrateToNotion_append env fs B,
      migrateToNotion]
    simp [Nat.add_assoc, List.append_assoc]

/-- C8 (amended): a local file whose frontmatter parses but lacks a truthy
title or date is skipped without aborting the remaining batch, adds exactly
one to the push run's final error count, and creates no page; a remote page
lacking a truthy title or date (Published falling back to Created time) is
likewise skipped without aborting the pull batch — but the pull script has
no error counter, so the pull-side skip is only logged, not counted. -/
theorem skip_missing_fields_C8 (env : PushEnv) (A B : List Str) (bad : Str)
    (fmc : Frontmatter × Str) (hparse : parseFrontmatter bad = some fmc)
    (hmiss : (!truthyFM fmc.1.title || !truthyFM fmc.1.date) = true)
    (pages1 pages2 : List PageRaw) (badPage : PageRaw)
    (hbad : (truthyS badPage.name
      && truthyS (jsOrS badPage.published badPage.created)) = false) :
    (migrateToNotion env (A ++ bad :: B)).1 = (migrateToNotion env (A ++ B)).1 ∧
    (migrateToNotion env (A ++ bad :: B)).2.1
      = (migrateToNotion env (A ++ B)).2.1 + 1 ∧
    (migrateToNotion env (A ++ bad :: B)).2.2 = (migrateToNotion env (A ++ B)).2.2 ∧
    (fetchBlogPosts (pages1 ++ badPage :: pages2) none).2
      = (fetchBlogPosts (pages1 ++ pages2) none).2 := by
  have hbadfile : processFile env bad = (0, 1, []) := by
    unfold processFile
    rw [hparse]
    simp [hmiss]
  have hbadpage : pageToPost badPage = none := by
    unfold pageToPost
    simp [hbad]
  have hmig : ∀ L : List Str,
      migrateToNotion env (bad :: L)
        = (0 + (migrateToNotion env L).1, 1 + (migrateToNotion env L).2.1,
           (migrateToNotion env L).2.2) := by
    intro L
    rw [migrateToNotion, hbadfile]
    simp
  refine ⟨?_, ?_, ?_, ?_⟩
  · rw [migrateToNotion_append env A (bad :: B), hmig B, migrateToNotion_append env A B]
    dsimp only
    omega
  · rw [migrateToNotion_append env A (bad :: B), hmig B, migrateToNotion_append env A B]
    dsimp only
    omega
  · rw [migrateToNotion_append env A (bad :: B), hmig B, migrateToNotion_append env A B]
  · unfold fetchBlogPosts
    simp [List.filterMap_append, hbadpage]

/-- C8 witness: one file with an empty title among two good files, and one
date-less page between two good pages. -/
theorem skip_missing_fields_C8_witness :
    (migrateToNotion
        { create := fun _ _ => .ok "pid".data }
        (["---\ntitle: A\ndate: d\n---\nx".data]
          ++ "---\ntitle: \ndate: d\n---\nx".data
          :: ["---\ntitle: B\ndate: d\n---\nx".data])).1
      = (migrateToNotion
          { create := fun _ _ => .ok "pid".data }
          (["---\ntitle: A\ndate: d\n---\nx".data]
            ++ ["---\ntitle: B\ndate: d\n---\nx".data])).1 ∧
    (migrateToNotion
        { create := fun _ _ => .ok "pid".data }
        (["---\ntitle: A\ndate: d\n---\nx".data]
          ++ "---\ntitle: \ndate: d\n---\nx".data
          :: ["---\ntitle: B\ndate: d\n---\nx".data])).2.1
      = (migrateToNotion
          { create := fun _ _ => .ok "pid".data }
          (["---\ntitle: A\ndate: d\n---\nx".data]
            ++ ["---\ntitle: B\ndate: d\n---\nx".data])).2.1 + 1 ∧
    (migrateToNotion
        { create := fun _ _ => .ok "pid".data }
        (["---\ntitle: A\ndate: d\n---\nx".data]
          ++ "---\ntitle: \ndate: d\n---\nx".data
          :: ["---\ntitle: B\ndate: d\n---\nx".data])).2.2
      = (migrateToNotion
          { create := fun _ _ => .ok "pid".data }
          (["---\ntitle: A\ndate: d\n---\nx".data]
            ++ ["---\ntitle: B\ndate: d\n---\nx".data])).2.2 ∧
    (fetchBlogPosts
        ([{ id := "g1".data, name := some "T1".data, slugProp := none,
            published := some "2024".data, created := none, tags := [],
            markdown := [] }]
          ++ { id := "b".data, name := some "T".data, slugProp := none,
               published := none, created := none, tags := [],
               markdown := [] }
            :: [{ id := "g2".data, name := some "T2".data, slugProp := none,
                  published := some "2025".data, created := none, tags := [],
                  markdown := [] }]) none).2
      = (fetchBlogPosts
          ([{ id := "g1".data, name := some "T1".data, slugProp := none,
              published := some "2024".data, created := none, tags := [],
              markdown := [] }]
            ++ [{ id := "g2".data, name := some "T2".data, slugProp := none,
                  published := some "2025".data, created := none, tags := [],
                  markdown := [] }]) none).2 :=
  skip_missing_fields_C8
    { create := fun _ _ => .ok "pid".data }
    ["---\ntitle: A\ndate: d\n---\nx".data]
    ["---\ntitle: B\ndate: d\n---\nx".data]
    "---\ntitle: \ndate: d\n---\nx".data
    (({ title := .str [], date := .str "d".data }, "x".data))
    (by decide) (by decide)
    [{ id := "g1".data, name := some "T1".data, slugProp := none,
       published := some "2024".data, created := none, tags := [], markdown := [] }]
    [{ id := "g2".data, name := some "T2".data, slugProp := none,
       published := some "2025".data, created := none, tags := [], markdown := [] }]
    { id := "b".data, name := some "T".data, slugProp := none,
      published := none, created := none, tags := [], markdown := [] }
    (by decide)

/-- A page with a truthy title but neither a `Published` date nor a
`Created time`: the pull loop skips it with only a console warning. -/
def badPage0 : PageRaw :=
  { id := "p1".data, name := some "T".data, slugProp := none,
    published := none, created := none, tags := [], markdown := "md".data }

/-- A pull environment whose query returns exactly the posts extracted
from `[badPage0]`. -/
def envWithBad : SyncEnv :=
  { now := "t1".data,
    fetchPosts := fun ls => .ok (fetchBlogPosts [badPage0] ls).2,
    getYear := fun d => d.take 4,
    getTime := fun _ => 0,
    writeFails := fun _ _ => false }

/-- The same environment with the bad page absent from the remote source. -/
def envNoBad : SyncEnv :=
  { envWithBad with fetchPosts := fun ls => .ok (fetchBlogPosts [] ls).2 }

/-- C8 counterexample: the pull run that skips a date-less page is
indistinguishable — same files written, same sync state, same exit — from
the run where that page does not exist at all: no error count of the pull
run reflects the skip, contradicting the claim for the pull direction. -/
theorem skip_missing_fields_C8_counterexample :
    jsOrS badPage0.published badPage0.created = none ∧
    truthyS badPage0.name = true ∧
    pageToPost badPage0 = none ∧
    syncPosts envWithBad { stateFile := .absent, files := [] }
      = syncPosts envNoBad { stateFile := .absent, files := [] } := by decide
